import Mathlib

/-!
Verification development for the authenticated request core of the
`pulumi-events` repository: the OAuth2 token store
(`src/pulumi_events/auth/token_store.py`), the two transports
(`providers/meetup/client.py`, `providers/luma/client.py`), the pagination
loops (`providers/luma/client.py`, `providers/meetup/provider.py`) and the
bounded fan-out member search (`providers/meetup/provider.py`).

JSON values flowing through the code are embedded as the inductive `JVal`;
Python dicts become association lists (`Dict`).  Python exceptions are
embedded as `Option`/`Except` results: a `none` result marks an uncaught
Python-level exception.  Wall-clock time (`time.time()`) is modelled as an
integer number of epoch seconds, which is enough to express every margin
comparison in the source.  `float()` coercion of a numeric string and the
`str()` rendering of arbitrary payloads are not modelled (they are mapped to
the Python-error case); no theorem below depends on those cases.
-/

/-- Embedded JSON value (the values held by the Python dicts in the source). -/
inductive JVal where
  | null
  | jbool (b : Bool)
  | num (n : Int)
  | str (s : String)
  | arr (xs : List JVal)
  | obj (fields : List (String × JVal))

/-- A Python dict with string keys, as used throughout the source. -/
abbrev Dict := List (String × JVal)

/-- `d.get(k)` / `d[k]` lookup: first binding of the key wins. -/
def dget : Dict → String → Option JVal
  | [], _ => none
  | (k', v) :: rest, k => if k' = k then some v else dget rest k

/-- `d[k] = v`: replace the first binding of `k` in place, else append
(Python dicts keep the original key position on re-assignment). -/
def dinsert : Dict → String → JVal → Dict
  | [], k, v => [(k, v)]
  | (k', v') :: rest, k, v =>
      if k' = k then (k, v) :: rest else (k', v') :: dinsert rest k v

/-- Python truthiness of a JSON value (`if x:`). -/
def truthy : JVal → Bool
  | .null => false
  | .jbool b => b
  | .num n => n != 0
  | .str s => s ≠ ""
  | .arr xs => !xs.isEmpty
  | .obj d => !d.isEmpty

/-- `float(x)` for an embedded value.  Numbers and booleans coerce; every
other case is treated as a Python-level error (`float` of a numeric string
would succeed in Python but no code path proved below reaches it). -/
def toFloat : JVal → Option Int
  | .num n => some n
  | .jbool b => some (if b then 1 else 0)
  | _ => none

theorem dget_dinsert_self (d : Dict) (k : String) (v : JVal) :
    dget (dinsert d k v) k = some v := by
  induction d with
  | nil => simp [dinsert, dget]
  | cons hd tl ih =>
    obtain ⟨k', v'⟩ := hd
    by_cases h : k' = k
    · simp [dinsert, h, dget]
    · simp [dinsert, h, dget, ih]

theorem dget_dinsert_ne (d : Dict) (k k' : String) (v : JVal) (h : k ≠ k') :
    dget (dinsert d k v) k' = dget d k' := by
  induction d with
  | nil => simp [dinsert, dget, h]
  | cons hd tl ih =>
    obtain ⟨k₀, v₀⟩ := hd
    by_cases h₀ : k₀ = k
    · subst h₀
      simp [dinsert, dget, h]
    · simp only [dinsert, if_neg h₀]
      by_cases h₁ : k₀ = k'
      · simp [dget, h₁]
      · simp [dget, h₁, ih]

/-! ## Credential store (`auth/token_store.py`)

The on-disk cache file is abstracted to its parse outcome: `absent`
(`_cache_file.exists()` is false), `unreadable` (`read_text` raises
`OSError`), `corrupt` (`json.loads` raises `JSONDecodeError`) or
`stored d` (the file holds the JSON serialisation of dict `d`; the
`json.dumps`/`json.loads` round trip is taken as exact). -/

inductive DiskFile where
  | absent
  | unreadable
  | corrupt
  | stored (d : Dict)

/-- The mutable state owned by a `TokenStore`: the in-memory record and the
cache file it persists to. -/
structure StoreState where
  token_data : Option Dict
  disk : DiskFile

/-- `TokenStore._load_from_disk`: parse the cache file; `OSError` and
`JSONDecodeError` are caught and leave `_token_data = None`. -/
def load_from_disk : DiskFile → Option Dict
  | .absent => none
  | .unreadable => none
  | .corrupt => none
  | .stored d => some d

/-- `TokenStore.__init__`: `_token_data = None` then `_load_from_disk()`. -/
def TokenStore.init (file : DiskFile) : StoreState :=
  { token_data := load_from_disk file, disk := file }

/-- `TokenStore.is_authenticated`. -/
def is_authenticated (st : StoreState) : Bool :=
  st.token_data.isSome

/-- `_REFRESH_MARGIN_SECONDS`. -/
def REFRESH_MARGIN_SECONDS : Int := 300

/-- `TokenStore._is_expired`: `time.time() > obtained + expires_in - 300`,
with both fields read via `.get(key, 0)` and coerced by `float`. -/
def is_expired (td : Option Dict) (now : Int) : Option Bool :=
  match td with
  | none => some true
  | some d =>
    match toFloat ((dget d "obtained_at").getD (.num 0)),
          toFloat ((dget d "expires_in").getD (.num 0)) with
    | some obtained, some expires_in =>
        some (decide (now > obtained + expires_in - REFRESH_MARGIN_SECONDS))
    | _, _ => none

/-- `TokenStore.store_token`: stamp `obtained_at = now`, replace the
in-memory record wholesale and persist it (`_save_to_disk` writes the full
serialisation of the new record). -/
def store_token (_st : StoreState) (token_data : Dict) (now : Int) : StoreState :=
  let d := dinsert token_data "obtained_at" (.num now)
  { token_data := some d, disk := .stored d }

/-- The distinguishable failures of the store; all surface as
`AuthenticationError` in the source, distinguished by message.
`pythonError` marks an uncaught `TypeError`/`ValueError`. -/
inductive AuthErr where
  | notAuthenticated
  | corruptCache
  | noRefreshToken
  | refreshFailed (status : Int) (body : String)
  | pythonError
deriving DecidableEq

/-- The message text each failure carries in the source. -/
def AuthErr.message : AuthErr → String
  | .notAuthenticated => "Not authenticated — run meetup_login first"
  | .corruptCache => "Corrupt token cache — re-authenticate with meetup_login"
  | .noRefreshToken => "No refresh token available — re-authenticate with meetup_login"
  | .refreshFailed status body =>
      "Token refresh failed (" ++ toString status ++ "): " ++ body
  | .pythonError => "uncaught Python exception"

/-- The token endpoint's reply to the one refresh POST a call may issue
(`resp.json()` is modelled as an already-parsed dict). -/
structure RefreshResponse where
  status_code : Int
  text : String
  json : Dict

/-- `TokenStore._refresh`.  The third component counts HTTP requests issued
to the token endpoint (0 or 1). -/
def refresh (st : StoreState) (resp : RefreshResponse) (now : Int) :
    Except AuthErr Unit × StoreState × Nat :=
  match dget (st.token_data.getD []) "refresh_token" with
  | some (.str _) =>
      if resp.status_code ≠ 200 then
        (.error (.refreshFailed resp.status_code resp.text), st, 1)
      else
        (.ok (), store_token st resp.json now, 1)
  | _ => (.error .noRefreshToken, st, 0)

/-- `self._token_data.get("access_token")` plus the `isinstance(token, str)`
check at the end of `get_access_token`. -/
def readAccessToken (st : StoreState) : Except AuthErr String :=
  match dget (st.token_data.getD []) "access_token" with
  | some (.str s) => .ok s
  | _ => .error .corruptCache

/-- `TokenStore.get_access_token` (the body of the critical section).
Returns the result, the store state after the call, and the number of
refresh requests issued. -/
def get_access_token (st : StoreState) (resp : RefreshResponse) (now : Int) :
    Except AuthErr String × StoreState × Nat :=
  match st.token_data with
  | none => (.error .notAuthenticated, st, 0)
  | some _ =>
    match is_expired st.token_data now with
    | none => (.error .pythonError, st, 0)
    | some true =>
      match refresh st resp now with
      | (.error e, st', n) => (.error e, st', n)
      | (.ok _, st', n) => (readAccessToken st', st', n)
    | some false => (readAccessToken st, st, 0)

/-- Helper: a stored record whose margin has not been passed is returned as
is, with no refresh request and no state change. -/
theorem get_access_token_fresh (st : StoreState) (d : Dict) (resp : RefreshResponse)
    (now o e : Int) (tok : String)
    (htd : st.token_data = some d)
    (ho : dget d "obtained_at" = some (.num o))
    (he : dget d "expires_in" = some (.num e))
    (hfresh : ¬ now > o + e - 300)
    (htok : dget d "access_token" = some (.str tok)) :
    get_access_token st resp now = (.ok tok, st, 0) := by
  have hd : decide (now > o + e - REFRESH_MARGIN_SECONDS) = false := by
    simp [REFRESH_MARGIN_SECONDS]
    omega
  simp [get_access_token, htd, is_expired, ho, he, toFloat, hd, readAccessToken, htok]

/-- Helper: a stored record past the margin with a refresh token, against a
200 response, is refreshed: one request, record replaced, new token
returned. -/
theorem get_access_token_refreshes (st : StoreState) (d : Dict) (resp : RefreshResponse)
    (now o e : Int) (rt newTok : String)
    (htd : st.token_data = some d)
    (ho : dget d "obtained_at" = some (.num o))
    (he : dget d "expires_in" = some (.num e))
    (hexp : now > o + e - 300)
    (hrt : dget d "refresh_token" = some (.str rt))
    (h200 : resp.status_code = 200)
    (hjtok : dget resp.json "access_token" = some (.str newTok)) :
    get_access_token st resp now = (.ok newTok, store_token st resp.json now, 1) := by
  have hd : decide (now > o + e - REFRESH_MARGIN_SECONDS) = true := by
    simp [REFRESH_MARGIN_SECONDS]
    omega
  have haccess : dget (dinsert resp.json "obtained_at" (.num now)) "access_token"
      = some (.str newTok) := by
    rw [dget_dinsert_ne _ _ _ _ (by decide)]
    exact hjtok
  simp [get_access_token, htd, is_expired, ho, he, toFloat, hd, refresh, hrt, h200,
    readAccessToken, store_token, haccess]

/-- A concrete stored record sitting exactly on the safety-margin boundary:
`obtained_at = 0`, `expires_in = 300`, so `obtained_at + expires_in - 300 = 0`. -/
def c1xSt : StoreState :=
  { token_data := some [("access_token", .str "tok"), ("refresh_token", .str "rt"),
      ("obtained_at", .num 0), ("expires_in", .num 300)],
    disk := .absent }

/-- A refresh response the boundary record would have used had it refreshed. -/
def c1xResp : RefreshResponse :=
  { status_code := 200, text := "",
    json := [("access_token", .str "new"), ("refresh_token", .str "rt2"),
      ("expires_in", .num 3600)] }

/-- C1 counterexample: at `now = obtained_at + expires_in - 300` exactly
(`now = 0` here) the claim demands a refresh before returning, but
`get_access_token` returns the stored token with zero refresh requests,
because `_is_expired` uses the strict comparison `now > obtained_at +
expires_in - 300`. -/
theorem c1_counterexample :
    (0 : Int) ≥ 0 + 300 - 300 ∧
    get_access_token c1xSt c1xResp 0 = (.ok "tok", c1xSt, 0) :=
  ⟨by decide, by rfl⟩

/-- C1 (amended): for every stored record with numeric `obtained_at` and
`expires_in` and a string `access_token`, `get_access_token` returns the
stored token without issuing any refresh request when
`now ≤ obtained_at + expires_in - 300`; and whenever
`now > obtained_at + expires_in - 300` (strictly past the 300-second safety
margin) it performs a refresh before returning the (possibly new) access
token. -/
theorem c1_refresh_margin (st : StoreState) (d : Dict) (resp : RefreshResponse)
    (now o e : Int) (tok : String)
    (htd : st.token_data = some d)
    (ho : dget d "obtained_at" = some (.num o))
    (he : dget d "expires_in" = some (.num e))
    (htok : dget d "access_token" = some (.str tok)) :
    (now ≤ o + e - 300 → get_access_token st resp now = (.ok tok, st, 0)) ∧
    (now > o + e - 300 →
      (∀ rt, dget d "refresh_token" = some (.str rt) →
        (get_access_token st resp now).2.2 = 1) ∧
      (∀ rt newTok, dget d "refresh_token" = some (.str rt) →
        resp.status_code = 200 →
        dget resp.json "access_token" = some (.str newTok) →
        get_access_token st resp now = (.ok newTok, store_token st resp.json now, 1))) := by
  constructor
  · intro h
    exact get_access_token_fresh st d resp now o e tok htd ho he (by omega) htok
  · intro hexp
    constructor
    · intro rt hrt
      have hd : decide (now > o + e - REFRESH_MARGIN_SECONDS) = true := by
        simp [REFRESH_MARGIN_SECONDS]
        omega
      by_cases h200 : resp.status_code = 200
      · simp [get_access_token, htd, is_expired, ho, he, toFloat, hd, refresh, hrt, h200]
      · simp [get_access_token, htd, is_expired, ho, he, toFloat, hd, refresh, hrt, h200]
    · intro rt newTok hrt h200 hjtok
      exact get_access_token_refreshes st d resp now o e rt newTok htd ho he hexp hrt h200 hjtok

/-- C1 witness: the amended theorem applied to the concrete boundary record,
once below the margin (`now = 0 ≤ 0 + 300 - 300`, token returned with no
request) and once past it (`now = 1`, one refresh request issued). -/
theorem c1_refresh_margin_witness :
    get_access_token c1xSt c1xResp 0 = (.ok "tok", c1xSt, 0) ∧
    (get_access_token c1xSt c1xResp 1).2.2 = 1 :=
  ⟨(c1_refresh_margin c1xSt _ c1xResp 0 0 300 "tok" rfl rfl rfl rfl).1 (by decide),
   ((c1_refresh_margin c1xSt _ c1xResp 1 0 300 "tok" rfl rfl rfl rfl).2
      (by decide)).1 "rt" rfl⟩

/-- C3: `store_token r` followed by a fresh load from the disk it wrote
yields a record that agrees with `r` on every key other than `obtained_at`
(in particular `access_token`, `refresh_token`, `expires_in`; no merging
with the prior record, which the result does not depend on), while
`obtained_at` is stamped with the store-time clock, replacing any
`obtained_at` the response carried. -/
theorem c3_store_round_trip (st : StoreState) (r : Dict) (now : Int) :
    ∃ d, load_from_disk (store_token st r now).disk = some d ∧
      dget d "obtained_at" = some (.num now) ∧
      (∀ k, k ≠ "obtained_at" → dget d k = dget r k) ∧
      (store_token st r now).token_data = some d := by
  refine ⟨dinsert r "obtained_at" (.num now), rfl, dget_dinsert_self _ _ _, ?_, rfl⟩
  intro k hk
  exact dget_dinsert_ne _ _ _ _ (Ne.symm hk)

/-- C3 witness: the round trip at a concrete response that already carries
an `obtained_at`, stored over a non-empty prior record. -/
theorem c3_store_round_trip_witness :
    ∃ d, load_from_disk (store_token c1xSt
        [("access_token", .str "new"), ("refresh_token", .str "rt2"),
         ("expires_in", .num 3600), ("obtained_at", .num 11111)] 42).disk = some d ∧
      dget d "obtained_at" = some (.num 42) ∧
      (∀ k, k ≠ "obtained_at" → dget d k = dget
        [("access_token", .str "new"), ("refresh_token", .str "rt2"),
         ("expires_in", .num 3600), ("obtained_at", .num 11111)] k) ∧
      (store_token c1xSt
        [("access_token", .str "new"), ("refresh_token", .str "rt2"),
         ("expires_in", .num 3600), ("obtained_at", .num 11111)] 42).token_data = some d :=
  c3_store_round_trip c1xSt _ 42

/-- C4: when a refresh runs, (1) a record whose `refresh_token` is missing
or not a string fails with `NoRefreshToken` and issues no request to the
token endpoint, and (2) a non-success HTTP status from the endpoint fails
with `RefreshFailed` carrying the status and body; in both cases the store
state (in-memory record and disk file) is unchanged. -/
theorem c4_refresh_failure (st : StoreState) (resp : RefreshResponse) (now : Int) :
    ((∀ s, dget (st.token_data.getD []) "refresh_token" ≠ some (.str s)) →
        refresh st resp now = (.error .noRefreshToken, st, 0)) ∧
    (∀ rt, dget (st.token_data.getD []) "refresh_token" = some (.str rt) →
        ¬ (200 ≤ resp.status_code ∧ resp.status_code < 300) →
        refresh st resp now = (.error (.refreshFailed resp.status_code resp.text), st, 1)) := by
  constructor
  · intro h
    rcases hrt : dget (st.token_data.getD []) "refresh_token" with _ | v
    · simp [refresh, hrt]
    · rcases v with _ | b | n | s | xs | ob
      · simp [refresh, hrt]
      · simp [refresh, hrt]
      · simp [refresh, hrt]
      · exact absurd hrt (h s)
      · simp [refresh, hrt]
      · simp [refresh, hrt]
  · intro rt hrt hns
    have h200 : resp.status_code ≠ 200 := by
      intro h
      exact hns ⟨by omega, by omega⟩
    simp [refresh, hrt, h200]

/-- C4 witness: a record with no refresh token fails with `NoRefreshToken`
and zero requests, and a record with one fails with `RefreshFailed 401`
carrying the body, both leaving the store unchanged. -/
theorem c4_refresh_failure_witness :
    refresh { token_data := some [("access_token", .str "tok")], disk := .absent }
        c1xResp 7
      = (.error .noRefreshToken,
         { token_data := some [("access_token", .str "tok")], disk := .absent }, 0) ∧
    refresh c1xSt { status_code := 401, text := "denied", json := [] } 7
      = (.error (.refreshFailed 401 "denied"), c1xSt, 1) :=
  ⟨(c4_refresh_failure _ c1xResp 7).1 (by intro s; simp [dget]),
   (c4_refresh_failure c1xSt _ 7).2 "rt" rfl (by decide)⟩

/-- C9: a cache file whose contents fail to parse (`JSONDecodeError`) or
whose read raises an I/O error (`OSError`) is treated as "no token": store
construction is total (no exception escapes `_load_from_disk`), the
in-memory record is `None`, and `is_authenticated` is false. -/
theorem c9_malformed_cache :
    (TokenStore.init .corrupt).token_data = none ∧
    is_authenticated (TokenStore.init .corrupt) = false ∧
    (TokenStore.init .unreadable).token_data = none ∧
    is_authenticated (TokenStore.init .unreadable) = false :=
  ⟨rfl, rfl, rfl, rfl⟩

/-! ## Object-level view of `store_token` (claim about aliasing)

`store_token` assigns into its argument dict and then binds `_token_data`
to that same object.  To express this, dict objects live in a heap indexed
by object identity, and the store holds a reference. -/

/-- A heap of Python dict objects, addressed by identity. -/
def Heap : Type := Nat → Dict

/-- Store state at the object level: a reference to the current record. -/
structure StoreRef where
  token_ref : Option Nat
  disk : DiskFile

/-- `TokenStore.store_token` at the object level:
`token_data["obtained_at"] = time.time()` mutates the caller's dict in
place, and `self._token_data = token_data` retains that same reference (no
copy is made). -/
def store_token_ref (heap : Heap) (_st : StoreRef) (a : Nat) (now : Int) :
    Heap × StoreRef :=
  let d := dinsert (heap a) "obtained_at" (.num now)
  (fun x => if x = a then d else heap x,
   { token_ref := some a, disk := .stored d })

/-- C10: after `store_token(d)`, the caller's dict (the heap cell the caller
passed) contains an `obtained_at` key stamped with the call-time clock —
whether or not it had one before — and the store's in-memory record is that
same object (the same reference, not a copy). -/
theorem c10_store_token_in_place (heap : Heap) (st : StoreRef) (a : Nat) (now : Int) :
    dget ((store_token_ref heap st a now).1 a) "obtained_at" = some (.num now) ∧
    (store_token_ref heap st a now).2.token_ref = some a := by
  refine ⟨?_, rfl⟩
  simp only [store_token_ref, if_true, eq_self_iff_true]
  exact dget_dinsert_self _ _ _

/-- C10 witness: a caller dict without `obtained_at` at address 0 gains the
key, and the store points at address 0 afterwards. -/
theorem c10_store_token_in_place_witness :
    dget ((store_token_ref (fun _ => [("access_token", .str "a")])
        { token_ref := none, disk := .absent } 0 77).1 0) "obtained_at"
      = some (.num 77) ∧
    (store_token_ref (fun _ => [("access_token", .str "a")])
        { token_ref := none, disk := .absent } 0 77).2.token_ref = some 0 :=
  c10_store_token_in_place (fun _ => [("access_token", .str "a")])
    { token_ref := none, disk := .absent } 0 77

/-! ## Single-flight refresh (claim about concurrent callers)

Every read-check-refresh-return sequence of `get_access_token` runs inside
`async with self._lock`, and every access to the shared `_token_data`
happens inside that critical section, so any concurrent execution of N
callers is observationally equal to running the N critical sections
sequentially in lock-acquisition order.  `runCallers` is that linearised
semantics; the callers are symmetric, so one definition covers every
acquisition order. -/

/-- N callers of `get_access_token`, linearised by the store's lock.
Returns each caller's result, the final state, and the total number of
refresh requests issued. -/
def runCallers : Nat → StoreState → RefreshResponse → Int →
    List (Except AuthErr String) × StoreState × Nat
  | 0, st, _, _ => ([], st, 0)
  | n + 1, st, resp, now =>
    let r := get_access_token st resp now
    let rest := runCallers n r.2.1 resp now
    (r.1 :: rest.1, rest.2.1, r.2.2 + rest.2.2)

/-- Helper: a store already holding a fresh token serves any number of
callers with zero refresh requests and no state change. -/
theorem runCallers_fresh (n : Nat) (st : StoreState) (d : Dict)
    (resp : RefreshResponse) (now o e : Int) (tok : String)
    (htd : st.token_data = some d)
    (ho : dget d "obtained_at" = some (.num o))
    (he : dget d "expires_in" = some (.num e))
    (hfresh : ¬ now > o + e - 300)
    (htok : dget d "access_token" = some (.str tok)) :
    runCallers n st resp now = (List.replicate n (.ok tok), st, 0) := by
  induction n with
  | zero => simp [runCallers]
  | succ m ih =>
    simp [runCallers, get_access_token_fresh st d resp now o e tok htd ho he hfresh htok,
      ih, List.replicate_succ]

/-- C2 counterexample: at `now = obtained_at + expires_in - 300` exactly —
inside the claim's `now >= threshold` range — three concurrent callers
issue zero refresh requests, not exactly one, and each observes the stale
stored token, because `_is_expired` uses the strict comparison
`now > obtained_at + expires_in - 300`. -/
theorem c2_counterexample :
    (0 : Int) ≥ 0 + 300 - 300 ∧
    (runCallers 3 c1xSt c1xResp 0).2.2 = 0 ∧
    (runCallers 3 c1xSt c1xResp 0).1 = List.replicate 3 (.ok "tok") :=
  ⟨by decide, by rfl, by rfl⟩

/-- C2 (amended): for a stored record strictly past the refresh margin
(`now > obtained_at + expires_in - 300`; at the boundary itself the record
is not treated as expired and zero refreshes are issued), N ≥ 1 callers
running through the store's critical section issue exactly one refresh
request in total (single-flight), and every caller — including those
arriving during and after the in-flight refresh — observes the refreshed
token, never the stale one.  (Hypotheses: the record carries a refresh
token, and the endpoint answers 200 with a string `access_token` and an
`expires_in` of at least the 300-second margin — otherwise the refreshed
record is itself already within the margin and later callers refresh it
again.) -/
theorem c2_single_flight (n : Nat) (st : StoreState) (d : Dict)
    (resp : RefreshResponse) (now o e e' : Int) (rt newTok : String)
    (htd : st.token_data = some d)
    (ho : dget d "obtained_at" = some (.num o))
    (he : dget d "expires_in" = some (.num e))
    (hexp : now > o + e - 300)
    (hrt : dget d "refresh_token" = some (.str rt))
    (h200 : resp.status_code = 200)
    (hjtok : dget resp.json "access_token" = some (.str newTok))
    (hje : dget resp.json "expires_in" = some (.num e'))
    (he' : 300 ≤ e') :
    runCallers (n + 1) st resp now
      = (List.replicate (n + 1) (.ok newTok), store_token st resp.json now, 1) := by
  have hfirst := get_access_token_refreshes st d resp now o e rt newTok
    htd ho he hexp hrt h200 hjtok
  have hd' : (store_token st resp.json now).token_data
      = some (dinsert resp.json "obtained_at" (.num now)) := rfl
  have ho' : dget (dinsert resp.json "obtained_at" (.num now)) "obtained_at"
      = some (.num now) := dget_dinsert_self _ _ _
  have he'' : dget (dinsert resp.json "obtained_at" (.num now)) "expires_in"
      = some (.num e') := by
    rw [dget_dinsert_ne _ _ _ _ (by decide)]
    exact hje
  have htok' : dget (dinsert resp.json "obtained_at" (.num now)) "access_token"
      = some (.str newTok) := by
    rw [dget_dinsert_ne _ _ _ _ (by decide)]
    exact hjtok
  have hrest := runCallers_fresh n (store_token st resp.json now) _ resp now now e' newTok
    hd' ho' he'' (by omega) htok'
  simp [runCallers, hfirst, hrest, List.replicate_succ]

/-- C2 witness: three callers against the boundary record one second past
its margin issue exactly one refresh and all three get the new token. -/
theorem c2_single_flight_witness :
    runCallers 3 c1xSt c1xResp 1
      = (List.replicate 3 (.ok "new"), store_token c1xSt c1xResp.json 1, 1) :=
  c2_single_flight 2 c1xSt _ c1xResp 1 0 300 3600 "rt" "new"
    rfl rfl rfl (by decide) rfl rfl rfl rfl (by decide)

/-! ## Transports (`providers/meetup/client.py`, `providers/luma/client.py`)

Response handling after the HTTP call, given the response's status code and
parsed JSON body.  `body : Option Dict` is `none` when `resp.json()` would
raise (non-JSON body). -/

/-- Failures of the Meetup GraphQL transport.  `httpStatus` is httpx's
`raise_for_status` (`HTTPStatusError` on any non-2xx status); `graphQL` is
`MeetupGraphQLError` carrying the joined message and the structured error
list; `python` marks an uncaught Python-level error. -/
inductive TransportErr where
  | httpStatus (status : Int)
  | graphQL (message : String) (errors : List JVal)
  | python

/-- `e.get("message", str(e))` for one element of the `errors` array: a
string `message` field is used directly; the `str(e)` repr fallback and
non-mapping elements are not modelled (no proved path reaches them). -/
def errMessage : JVal → Option String
  | .obj e =>
    match dget e "message" with
    | some (.str s) => some s
    | _ => none
  | _ => none

/-- The messages of the error elements, in order (failing if any element
falls outside the modelled shape). -/
def errMessages : List JVal → Option (List String)
  | [] => some []
  | e :: rest =>
    match errMessage e, errMessages rest with
    | some s, some ss => some (s :: ss)
    | _, _ => none

/-- `"; ".join(e.get("message", str(e)) for e in errors)`. -/
def joinedMessages (errs : List JVal) : Option String :=
  (errMessages errs).map (String.intercalate "; ")

/-- `MeetupGraphQLClient.execute`, response-handling half: after
`resp.raise_for_status()`, a body carrying an `errors` key fails with
`MeetupGraphQLError` even on HTTP 200; otherwise the `data` dict (default
`{}`) is returned. -/
def meetup_execute_response (status : Int) (body : Dict) : Except TransportErr JVal :=
  if ¬ (200 ≤ status ∧ status < 300) then .error (.httpStatus status)
  else
    match dget body "errors" with
    | some (.arr errs) =>
      match joinedMessages errs with
      | some m => .error (.graphQL ("Meetup GraphQL errors: " ++ m) errs)
      | none => .error .python
    | some _ => .error .python
    | none => .ok ((dget body "data").getD (.obj []))

/-- Failures of the Luma REST transport (`ProviderError` with a formatted
message; `python` marks an uncaught Python-level error). -/
inductive LumaErr where
  | apiError (message : String)
  | python
deriving DecidableEq

/-- `LumaClient._handle_response`: status ≥ 400 fails with `ProviderError`
using the body's `message` field if present (and a string), else the raw
response text; otherwise the parsed body is returned unchanged — the Luma
path never inspects the payload for an `errors` array. -/
def luma_handle_response (status : Int) (text : String) (body : Option Dict) :
    Except LumaErr Dict :=
  if 400 ≤ status then
    match body with
    | none => .error (.apiError ("Luma API error (" ++ toString status ++ "): " ++ text))
    | some b =>
      match dget b "message" with
      | some (.str s) => .error (.apiError ("Luma API error (" ++ toString status ++ "): " ++ s))
      | none => .error (.apiError ("Luma API error (" ++ toString status ++ "): " ++ text))
      | some _ => .error .python
  else
    match body with
    | some b => .ok b
    | none => .error .python

/-- A concrete HTTP-200 payload that carries an `errors` array. -/
def c5Body : Dict :=
  [("data", .obj [("self", .null)]),
   ("errors", .arr [.obj [("message", .str "boom")]])]

/-- C5 counterexample: the header-token REST transport does not treat a
payload carrying an `errors` array as a failure — on HTTP 200 Luma's
`_handle_response` returns the payload unchanged, while the claim demands a
`RemoteError` from both variants. -/
theorem c5_counterexample :
    dget c5Body "errors" = some (.arr [.obj [("message", .str "boom")]]) ∧
    luma_handle_response 200 "" (some c5Body) = .ok c5Body :=
  ⟨rfl, rfl⟩

/-- C5 (amended): the Bearer-token GraphQL transport treats every response
payload carrying an `errors` array as a logical failure even on HTTP
success, failing with a `MeetupGraphQLError` that carries the structured
error list and a joined human-readable message; the header-token REST
transport does not inspect successful payloads for `errors` — on any HTTP
status below 400 it returns the payload unchanged, failing only on status
≥ 400. -/
theorem c5_errors_array (status : Int) (body : Dict) (errs : List JVal)
    (msgs : List String) (text : String)
    (hok : 200 ≤ status ∧ status < 300)
    (herr : dget body "errors" = some (.arr errs))
    (hmsgs : errMessages errs = some msgs) :
    meetup_execute_response status body
      = .error (.graphQL ("Meetup GraphQL errors: " ++ String.intercalate "; " msgs) errs) ∧
    (status < 400 → luma_handle_response status text (some body) = .ok body) := by
  constructor
  · simp [meetup_execute_response, hok, herr, joinedMessages, hmsgs]
  · intro h400
    have : ¬ 400 ≤ status := by omega
    simp [luma_handle_response, this]

/-- C5 witness: the amended theorem at the concrete payload above. -/
theorem c5_errors_array_witness :
    meetup_execute_response 200 c5Body
      = .error (.graphQL ("Meetup GraphQL errors: " ++ String.intercalate "; " ["boom"])
          [.obj [("message", .str "boom")]]) ∧
    ((200 : Int) < 400 → luma_handle_response 200 "" (some c5Body) = .ok c5Body) :=
  c5_errors_array 200 c5Body [.obj [("message", .str "boom")]] ["boom"] ""
    (by decide) rfl rfl

/-! ## Pagination (`LumaClient.get_all_pages`,
`MeetupProvider.list_all_my_groups`, `MeetupProvider.list_all_group_members`)

The backend is a function from the cursor passed in the request (none on
the first call) to the response's parsed body; the fixed query parameters
are absorbed into it.  Each loop additionally returns the number of backend
calls made. -/

/-- `page.get("entries", [])` followed by `all_entries.extend(...)`:
extending by a non-list is treated as a Python-level error. -/
def pageEntries (page : Dict) : Option (List JVal) :=
  match dget page "entries" with
  | none => some []
  | some (.arr xs) => some xs
  | some _ => none

/-- `page.get("has_more", False)` under `if not ...`. -/
def pageHasMore (page : Dict) : Bool :=
  truthy ((dget page "has_more").getD (.jbool false))

/-- `limit is not None and len(all_entries) >= limit`. -/
def limitReached : Option Nat → Nat → Bool
  | none, _ => false
  | some l, n => decide (l ≤ n)

/-- The loop body of `LumaClient.get_all_pages`: accumulate `entries`,
truncate and stop once `limit` is reached, stop when `has_more` is falsy or
the next cursor is missing/falsy, and stop when the page budget (`fuel`,
i.e. the remaining `range(max_pages)` iterations) runs out. -/
def luma_pages_loop (backend : Option JVal → Dict) :
    Nat → Option Nat → List JVal → Option JVal → Option (List JVal) × Nat
  | 0, _, acc, _ => (some acc, 0)
  | fuel + 1, limit, acc, cursor =>
    let page := backend cursor
    match pageEntries page with
    | none => (none, 1)
    | some entries =>
      let acc2 := acc ++ entries
      if limitReached limit acc2.length then
        (some (acc2.take (limit.getD 0)), 1)
      else if ! pageHasMore page then (some acc2, 1)
      else
        match dget page "next_cursor" with
        | some c =>
          if truthy c then
            let r := luma_pages_loop backend fuel limit acc2 (some c)
            (r.1, r.2 + 1)
          else (some acc2, 1)
        | none => (some acc2, 1)

/-- `LumaClient.get_all_pages` (entry point: empty accumulator, no cursor). -/
def luma_get_all_pages (backend : Option JVal → Dict) (max_pages : Nat)
    (limit : Option Nat) : Option (List JVal) × Nat :=
  luma_pages_loop backend max_pages limit [] none

/-- `DEFAULT_MAX_PAGES` (both `luma/client.py` and `meetup/provider.py`). -/
def DEFAULT_MAX_PAGES : Nat := 10

/-- `data["self"]["memberships"]` in `list_all_my_groups`. -/
def selfMemberships (data : Dict) : Option Dict :=
  match dget data "self" with
  | some (.obj s) =>
    match dget s "memberships" with
    | some (.obj conn) => some conn
    | _ => none
  | _ => none

/-- `data["groupByUrlname"]["memberships"]` in `list_all_group_members`. -/
def groupMemberships (data : Dict) : Option Dict :=
  match dget data "groupByUrlname" with
  | some (.obj g) =>
    match dget g "memberships" with
    | some (.obj conn) => some conn
    | _ => none
  | _ => none

/-- `connection.get("edges", [])`. -/
def connEdges (conn : Dict) : Option (List JVal) :=
  match dget conn "edges" with
  | none => some []
  | some (.arr xs) => some xs
  | some _ => none

/-- `connection.get("pageInfo", {})` then `page_info.get("hasNextPage",
False)` and `page_info.get("endCursor")`; `.get` on a non-mapping is a
Python-level error. -/
def connPageInfo (conn : Dict) : Option (Bool × Option JVal) :=
  match dget conn "pageInfo" with
  | none => some (false, none)
  | some (.obj pi) =>
      some (truthy ((dget pi "hasNextPage").getD (.jbool false)), dget pi "endCursor")
  | some _ => none

/-- The shared shape of the two `MeetupProvider` pagination loops
(`list_all_my_groups` and `list_all_group_members` duplicate it verbatim in
the source, differing only in the connection path `nav`). -/
def meetup_pages_loop (nav : Dict → Option Dict) (backend : Option JVal → Dict) :
    Nat → Option Nat → List JVal → Option JVal → Option (List JVal) × Nat
  | 0, _, acc, _ => (some acc, 0)
  | fuel + 1, limit, acc, cursor =>
    match nav (backend cursor) with
    | none => (none, 1)
    | some conn =>
      match connEdges conn with
      | none => (none, 1)
      | some edges =>
        let acc2 := acc ++ edges
        if limitReached limit acc2.length then
          (some (acc2.take (limit.getD 0)), 1)
        else
          match connPageInfo conn with
          | none => (none, 1)
          | some (hasNext, endCur) =>
            if ! hasNext then (some acc2, 1)
            else
              match endCur with
              | some c =>
                if truthy c then
                  let r := meetup_pages_loop nav backend fuel limit acc2 (some c)
                  (r.1, r.2 + 1)
                else (some acc2, 1)
              | none => (some acc2, 1)

/-- `edge["node"]`. -/
def nodeOf : JVal → Option JVal
  | .obj e => dget e "node"
  | _ => none

/-- `[edge["node"] for edge in all_edges]`. -/
def nodesOf : List JVal → Option (List JVal)
  | [] => some []
  | e :: rest =>
    match nodeOf e, nodesOf rest with
    | some n, some ns => some (n :: ns)
    | _, _ => none

/-- `MeetupProvider.list_all_my_groups`: paginate the memberships
connection, then map edges to nodes and wrap as `{"total": …, "groups": …}`. -/
def list_all_my_groups (backend : Option JVal → Dict) (limit : Option Nat)
    (max_pages : Nat) : Option Dict × Nat :=
  let r := meetup_pages_loop selfMemberships backend max_pages limit [] none
  match r.1 with
  | none => (none, r.2)
  | some edges =>
    match nodesOf edges with
    | none => (none, r.2)
    | some groups =>
        (some [("total", .num groups.length), ("groups", .arr groups)], r.2)

/-- The per-edge reshaping in `list_all_group_members`
(`edge["node"].get(...)` fields plus `edge.get("metadata", {}).get(...)`). -/
def memberOfEdge : JVal → Option JVal
  | .obj e =>
    match dget e "node" with
    | some (.obj node) =>
      match (dget e "metadata").getD (.obj []) with
      | .obj md =>
          some (.obj [
            ("id", (dget node "id").getD .null),
            ("name", (dget node "name").getD .null),
            ("city", (dget node "city").getD .null),
            ("country", (dget node "country").getD .null),
            ("role", (dget md "role").getD .null),
            ("status", (dget md "status").getD .null),
            ("joinTime", (dget md "joinTime").getD .null)])
      | _ => none
    | _ => none
  | _ => none

/-- The member list comprehension over all accumulated edges. -/
def membersOf : List JVal → Option (List JVal)
  | [] => some []
  | e :: rest =>
    match memberOfEdge e, membersOf rest with
    | some m, some ms => some (m :: ms)
    | _, _ => none

/-- `MeetupProvider.list_all_group_members`: paginate the group's
memberships connection, then reshape edges and wrap as
`{"total": …, "members": …}`. -/
def list_all_group_members (backend : Option JVal → Dict) (limit : Option Nat)
    (max_pages : Nat) : Option Dict × Nat :=
  let r := meetup_pages_loop groupMemberships backend max_pages limit [] none
  match r.1 with
  | none => (none, r.2)
  | some edges =>
    match membersOf edges with
    | none => (none, r.2)
    | some members =>
        (some [("total", .num members.length), ("members", .arr members)], r.2)

/-! ### Reference backends serving a fixed list of pages

Cursors are page indices; page `i` claims more pages exist exactly while a
page `i + 1` exists and always supplies the (truthy) cursor `i + 1`. -/

/-- The page index a request cursor denotes (first call: no cursor). -/
def cursorIndex : Option JVal → Nat
  | some (.num n) => n.toNat
  | _ => 0

/-- A REST backend serving the given pages in the Luma wire shape. -/
def pagesBackend (pages : List (List JVal)) (c : Option JVal) : Dict :=
  let i := cursorIndex c
  [("entries", .arr (pages.getD i [])),
   ("has_more", .jbool (decide (i + 1 < pages.length))),
   ("next_cursor", .num (Int.ofNat (i + 1)))]

/-- The memberships connection for page `i` of a GraphQL backend. -/
def connOf (pages : List (List JVal)) (i : Nat) : Dict :=
  [("edges", .arr (pages.getD i [])),
   ("pageInfo", .obj [("hasNextPage", .jbool (decide (i + 1 < pages.length))),
                      ("endCursor", .num (Int.ofNat (i + 1)))])]

/-- A GraphQL backend serving the given pages under `self.memberships`. -/
def myGroupsBackend (pages : List (List JVal)) (c : Option JVal) : Dict :=
  [("self", .obj [("memberships", .obj (connOf pages (cursorIndex c)))])]

/-- A GraphQL backend serving the given pages under
`groupByUrlname.memberships`. -/
def groupMembersBackend (pages : List (List JVal)) (c : Option JVal) : Dict :=
  [("groupByUrlname", .obj [("memberships", .obj (connOf pages (cursorIndex c)))])]

/-- Helper: the Luma pagination loop never makes more backend calls than it
has page budget, whatever the backend returns. -/
theorem luma_loop_calls_le (backend : Option JVal → Dict) (fuel : Nat)
    (limit : Option Nat) (acc : List JVal) (cursor : Option JVal) :
    (luma_pages_loop backend fuel limit acc cursor).2 ≤ fuel := by
  induction fuel generalizing acc cursor with
  | zero => simp [luma_pages_loop]
  | succ m ih =>
    simp only [luma_pages_loop]
    rcases pageEntries (backend cursor) with _ | entries
    · simp
    · simp only []
      cases hl : limitReached limit (acc ++ entries).length
      · simp only [hl, Bool.false_eq_true, if_false]
        cases hm : pageHasMore (backend cursor)
        · simp
        · simp only [hm, Bool.not_true, Bool.false_eq_true, if_false]
          rcases dget (backend cursor) "next_cursor" with _ | c
          · simp
          · simp only []
            cases ht : truthy c
            · simp
            · simp only [ht, if_true]
              have := ih (acc ++ entries) (some c)
              omega
      · simp [hl]

/-- Helper: the Meetup pagination loop never makes more backend calls than
it has page budget, whatever the backend returns. -/
theorem meetup_loop_calls_le (nav : Dict → Option Dict)
    (backend : Option JVal → Dict) (fuel : Nat) (limit : Option Nat)
    (acc : List JVal) (cursor : Option JVal) :
    (meetup_pages_loop nav backend fuel limit acc cursor).2 ≤ fuel := by
  induction fuel generalizing acc cursor with
  | zero => simp [meetup_pages_loop]
  | succ m ih =>
    simp only [meetup_pages_loop]
    rcases nav (backend cursor) with _ | conn
    · simp
    · simp only []
      rcases connEdges conn with _ | edges
      · simp
      · simp only []
        cases hl : limitReached limit (acc ++ edges).length
        · simp only [hl, Bool.false_eq_true, if_false]
          rcases connPageInfo conn with _ | ⟨hasNext, endCur⟩
          · simp
          · simp only []
            cases hasNext
            · simp
            · simp only [Bool.not_true, Bool.false_eq_true, if_false]
              rcases endCur with _ | c
              · simp
              · simp only []
                cases ht : truthy c
                · simp
                · simp only [ht, if_true]
                  have := ih (acc ++ edges) (some c)
                  omega
        · simp [hl]

theorem cursorIndex_next (i : Nat) : cursorIndex (some (.num (Int.ofNat (i + 1)))) = i + 1 := by
  simp [cursorIndex]

theorem truthy_next (i : Nat) : truthy (.num (Int.ofNat (i + 1))) = true := by
  simp [truthy]
  omega

/-- Helper: against a fixed page list, the Luma loop with no limit collects
the next `fuel` pages from position `i` on (stopping early at the last
page). -/
theorem luma_loop_pages_nolimit (pages : List (List JVal)) (fuel : Nat) :
    ∀ (i : Nat) (acc : List JVal) (c : Option JVal),
    cursorIndex c = i → i < pages.length →
    (luma_pages_loop (pagesBackend pages) fuel none acc c).1
      = some (acc ++ ((pages.drop i).take fuel).flatten) := by
  induction fuel with
  | zero => intro i acc c hc hi; simp [luma_pages_loop]
  | succ m ih =>
    intro i acc c hc hi
    have hentries : pageEntries (pagesBackend pages c) = some (pages.getD (cursorIndex c) []) := rfl
    have hmore : pageHasMore (pagesBackend pages c)
        = decide (cursorIndex c + 1 < pages.length) := rfl
    have hcur : dget (pagesBackend pages c) "next_cursor"
        = some (.num (Int.ofNat (cursorIndex c + 1))) := rfl
    have hget : pages.getD i [] = pages[i] := List.getD_eq_getElem pages [] hi
    have hdrop : pages.drop i = pages[i] :: pages.drop (i + 1) :=
      List.drop_eq_getElem_cons hi
    by_cases hnext : i + 1 < pages.length
    · have := ih (i + 1) (acc ++ pages[i]) (some (.num (Int.ofNat (i + 1))))
        (cursorIndex_next i) hnext
      simp only [luma_pages_loop, hentries, hc, hget, limitReached, hmore, hcur,
        decide_eq_true hnext, Bool.not_true, Bool.false_eq_true, if_false, truthy_next,
        if_true, this]
      rw [hdrop, List.take_succ_cons, List.flatten_cons, List.append_assoc]
    · have hstop : ¬ cursorIndex c + 1 < pages.length := by rw [hc]; exact hnext
      have hlast : pages.drop (i + 1) = [] := List.drop_eq_nil_of_le (by omega)
      simp only [luma_pages_loop, hentries, hc, hget, limitReached,  hmore,
        decide_eq_false hnext, Bool.not_false, if_true, Bool.false_eq_true, if_false]
      rw [hdrop, hlast, List.take_succ_cons, List.take_nil, List.flatten_cons,
        List.flatten_nil, List.append_nil]

/-- Helper: against a fixed page list with enough page budget to exhaust
it, the Luma loop with limit `l` computes the `l`-prefix of everything from
position `i` on. -/
theorem luma_loop_pages_limit (pages : List (List JVal)) (l : Nat) (fuel : Nat) :
    ∀ (i : Nat) (acc : List JVal) (c : Option JVal),
    cursorIndex c = i → i < pages.length → pages.length - i ≤ fuel →
    (luma_pages_loop (pagesBackend pages) fuel (some l) acc c).1
      = some ((acc ++ (pages.drop i).flatten).take l) := by
  induction fuel with
  | zero => intro i acc c hc hi hf; omega
  | succ m ih =>
    intro i acc c hc hi hf
    have hentries : pageEntries (pagesBackend pages c) = some (pages.getD (cursorIndex c) []) := rfl
    have hmore : pageHasMore (pagesBackend pages c)
        = decide (cursorIndex c + 1 < pages.length) := rfl
    have hcur : dget (pagesBackend pages c) "next_cursor"
        = some (.num (Int.ofNat (cursorIndex c + 1))) := rfl
    have hget : pages.getD i [] = pages[i] := List.getD_eq_getElem pages [] hi
    have hdrop : pages.drop i = pages[i] :: pages.drop (i + 1) :=
      List.drop_eq_getElem_cons hi
    have hflat : (acc ++ (pages.drop i).flatten)
        = (acc ++ pages[i]) ++ (pages.drop (i + 1)).flatten := by
      rw [hdrop, List.flatten_cons, List.append_assoc]
    by_cases hlim : l ≤ (acc ++ pages[i]).length
    · simp only [luma_pages_loop, hentries, hc, hget, limitReached, decide_eq_true hlim,
        if_true, Option.getD_some]
      rw [hflat, List.take_append_of_le_length hlim]
    · have hlf : limitReached (some l) (acc ++ pages[i]).length = false := by
        simp only [limitReached, decide_eq_false_iff_not]
        exact hlim
      by_cases hnext : i + 1 < pages.length
      · have := ih (i + 1) (acc ++ pages[i]) (some (.num (Int.ofNat (i + 1))))
          (cursorIndex_next i) hnext (by omega)
        simp only [luma_pages_loop, hentries, hc, hget, hlf, Bool.false_eq_true, if_false,
          hmore, decide_eq_true hnext, Bool.not_true, truthy_next, if_true, hcur, this]
        rw [hflat]
      · have hlast : pages.drop (i + 1) = [] := List.drop_eq_nil_of_le (by omega)
        have htake : ((acc ++ pages[i] : List JVal)).take l = acc ++ pages[i] :=
          List.take_of_length_le (by omega)
        simp only [luma_pages_loop, hentries, hc, hget, hlf, Bool.false_eq_true, if_false,
          hmore, decide_eq_false hnext, Bool.not_false, if_true]
        rw [hflat, hlast, List.flatten_nil, List.append_nil, htake]

/-- Helper: against a backend whose connection at cursor `i` is
`connOf pages i`, the Meetup loop with no limit collects the next `fuel`
pages from position `i` on. -/
theorem meetup_loop_pages_nolimit (pages : List (List JVal))
    (nav : Dict → Option Dict) (backend : Option JVal → Dict)
    (hnav : ∀ c, nav (backend c) = some (connOf pages (cursorIndex c))) (fuel : Nat) :
    ∀ (i : Nat) (acc : List JVal) (c : Option JVal),
    cursorIndex c = i → i < pages.length →
    (meetup_pages_loop nav backend fuel none acc c).1
      = some (acc ++ ((pages.drop i).take fuel).flatten) := by
  induction fuel with
  | zero => intro i acc c hc hi; simp [meetup_pages_loop]
  | succ m ih =>
    intro i acc c hc hi
    have hconn := hnav c
    rw [hc] at hconn
    have hedges : connEdges (connOf pages i)
        = some (pages.getD i []) := rfl
    have hinfo : connPageInfo (connOf pages i)
        = some (decide (i + 1 < pages.length),
                some (.num (Int.ofNat (i + 1)))) := rfl
    have hget : pages.getD i [] = pages[i] := List.getD_eq_getElem pages [] hi
    have hdrop : pages.drop i = pages[i] :: pages.drop (i + 1) :=
      List.drop_eq_getElem_cons hi
    by_cases hnext : i + 1 < pages.length
    · have := ih (i + 1) (acc ++ pages[i]) (some (.num (Int.ofNat (i + 1))))
        (cursorIndex_next i) hnext
      simp only [meetup_pages_loop, hconn, hedges, hget, limitReached, hinfo,
        decide_eq_true hnext, Bool.not_true, Bool.false_eq_true, if_false, truthy_next,
        if_true, this]
      rw [hdrop, List.take_succ_cons, List.flatten_cons, List.append_assoc]
    · have hlast : pages.drop (i + 1) = [] := List.drop_eq_nil_of_le (by omega)
      simp only [meetup_pages_loop, hconn, hedges, hget, limitReached, hinfo,
        decide_eq_false hnext, Bool.not_false, if_true, Bool.false_eq_true, if_false]
      rw [hdrop, hlast, List.take_succ_cons, List.take_nil, List.flatten_cons,
        List.flatten_nil, List.append_nil]

/-- Helper: against the same backend with enough page budget to exhaust the
pages, the Meetup loop with limit `l` computes the `l`-prefix of everything
from position `i` on. -/
theorem meetup_loop_pages_limit (pages : List (List JVal))
    (nav : Dict → Option Dict) (backend : Option JVal → Dict)
    (hnav : ∀ c, nav (backend c) = some (connOf pages (cursorIndex c)))
    (l : Nat) (fuel : Nat) :
    ∀ (i : Nat) (acc : List JVal) (c : Option JVal),
    cursorIndex c = i → i < pages.length → pages.length - i ≤ fuel →
    (meetup_pages_loop nav backend fuel (some l) acc c).1
      = some ((acc ++ (pages.drop i).flatten).take l) := by
  induction fuel with
  | zero => intro i acc c hc hi hf; omega
  | succ m ih =>
    intro i acc c hc hi hf
    have hconn := hnav c
    rw [hc] at hconn
    have hedges : connEdges (connOf pages i)
        = some (pages.getD i []) := rfl
    have hinfo : connPageInfo (connOf pages i)
        = some (decide (i + 1 < pages.length),
                some (.num (Int.ofNat (i + 1)))) := rfl
    have hget : pages.getD i [] = pages[i] := List.getD_eq_getElem pages [] hi
    have hdrop : pages.drop i = pages[i] :: pages.drop (i + 1) :=
      List.drop_eq_getElem_cons hi
    have hflat : (acc ++ (pages.drop i).flatten)
        = (acc ++ pages[i]) ++ (pages.drop (i + 1)).flatten := by
      rw [hdrop, List.flatten_cons, List.append_assoc]
    by_cases hlim : l ≤ (acc ++ pages[i]).length
    · simp only [meetup_pages_loop, hconn, hedges, hget, limitReached,
        decide_eq_true hlim, if_true, Option.getD_some]
      rw [hflat, List.take_append_of_le_length hlim]
    · have hlf : limitReached (some l) (acc ++ pages[i]).length = false := by
        simp only [limitReached, decide_eq_false_iff_not]
        exact hlim
      by_cases hnext : i + 1 < pages.length
      · have := ih (i + 1) (acc ++ pages[i]) (some (.num (Int.ofNat (i + 1))))
          (cursorIndex_next i) hnext (by omega)
        simp only [meetup_pages_loop, hconn, hedges, hget, hlf, Bool.false_eq_true,
          if_false, hinfo, decide_eq_true hnext, Bool.not_true, truthy_next, if_true, this]
        rw [hflat]
      · have hlast : pages.drop (i + 1) = [] := List.drop_eq_nil_of_le (by omega)
        have htake : ((acc ++ pages[i] : List JVal)).take l = acc ++ pages[i] :=
          List.take_of_length_le (by omega)
        simp only [meetup_pages_loop, hconn, hedges, hget, hlf, Bool.false_eq_true,
          if_false, hinfo, decide_eq_false hnext, Bool.not_false, if_true]
        rw [hflat, hlast, List.flatten_nil, List.append_nil, htake]

/-- Helper: the Luma loop over the empty page list returns no items. -/
theorem luma_loop_empty (maxPages : Nat) (limit : Option Nat) :
    (luma_pages_loop (pagesBackend []) maxPages limit [] none).1 = some [] := by
  cases maxPages with
  | zero => simp [luma_pages_loop]
  | succ m =>
    have hentries : pageEntries (pagesBackend [] none) = some [] := rfl
    have hmore : pageHasMore (pagesBackend [] none) = false := rfl
    cases hl : limitReached limit 0 with
    | true =>
      simp only [luma_pages_loop, hentries, List.nil_append, List.length_nil, hl, if_true]
      rcases limit with _ | l
      · simp [limitReached] at hl
      · have : l = 0 := by simpa [limitReached] using hl
        simp [this]
    | false =>
      simp [luma_pages_loop, hentries, hl, hmore]

/-- Helper: with every page inside the budget, the Luma fetch with limit
`l` returns the `l`-prefix of all items. -/
theorem luma_limit_full (pages : List (List JVal)) (l maxPages : Nat)
    (hfit : pages.length ≤ maxPages) :
    (luma_get_all_pages (pagesBackend pages) maxPages (some l)).1
      = some (pages.flatten.take l) := by
  rcases pages with _ | ⟨p, ps⟩
  · simpa [luma_get_all_pages] using luma_loop_empty maxPages (some l)
  · have hpos : 0 < (p :: ps).length := by simp
    have := luma_loop_pages_limit (p :: ps) l maxPages 0 [] none rfl hpos
      (by simp at hfit ⊢; omega)
    simpa [luma_get_all_pages, List.drop_zero] using this

/-- Helper: the Luma fetch with no limit and the page budget exhausted at
or before the page list returns exactly the first `maxPages` pages. -/
theorem luma_nolimit_cap (pages : List (List JVal)) (maxPages : Nat)
    (hcap : maxPages ≤ pages.length) :
    (luma_get_all_pages (pagesBackend pages) maxPages none).1
      = some ((pages.take maxPages).flatten) := by
  cases maxPages with
  | zero => simp [luma_get_all_pages, luma_pages_loop]
  | succ m =>
    have hpos : 0 < pages.length := by omega
    have := luma_loop_pages_nolimit pages (m + 1) 0 [] none rfl hpos
    simpa [luma_get_all_pages, List.drop_zero] using this

/-- Helper: the Meetup loop over the empty page list returns no items. -/
theorem meetup_loop_empty (nav : Dict → Option Dict) (backend : Option JVal → Dict)
    (hnav : ∀ c, nav (backend c) = some (connOf [] (cursorIndex c)))
    (maxPages : Nat) (limit : Option Nat) :
    (meetup_pages_loop nav backend maxPages limit [] none).1 = some [] := by
  cases maxPages with
  | zero => simp [meetup_pages_loop]
  | succ m =>
    have hconn := hnav none
    have hedges : connEdges (connOf [] (cursorIndex none)) = some [] := rfl
    have hinfo : connPageInfo (connOf [] (cursorIndex none)) = some (false, some (.num 1)) := rfl
    cases hl : limitReached limit 0 with
    | true =>
      simp only [meetup_pages_loop, hconn, hedges, List.nil_append, List.length_nil, hl,
        if_true]
      rcases limit with _ | l
      · simp [limitReached] at hl
      · have : l = 0 := by simpa [limitReached] using hl
        simp [this]
    | false =>
      simp [meetup_pages_loop, hconn, hedges, hl, hinfo]

/-- Helper: with every page inside the budget, the Meetup loop with limit
`l` returns the `l`-prefix of all edges. -/
theorem meetup_limit_full (pages : List (List JVal))
    (nav : Dict → Option Dict) (backend : Option JVal → Dict)
    (hnav : ∀ c, nav (backend c) = some (connOf pages (cursorIndex c)))
    (l maxPages : Nat) (hfit : pages.length ≤ maxPages) :
    (meetup_pages_loop nav backend maxPages (some l) [] none).1
      = some (pages.flatten.take l) := by
  rcases pages with _ | ⟨p, ps⟩
  · simpa using meetup_loop_empty nav backend hnav maxPages (some l)
  · have hpos : 0 < (p :: ps).length := by simp
    have := meetup_loop_pages_limit (p :: ps) nav backend hnav l maxPages 0 [] none rfl hpos
      (by simp at hfit ⊢; omega)
    simpa [List.drop_zero] using this

/-- Helper: the Meetup loop with no limit and the page budget exhausted at
or before the page list returns exactly the first `maxPages` pages. -/
theorem meetup_nolimit_cap (pages : List (List JVal))
    (nav : Dict → Option Dict) (backend : Option JVal → Dict)
    (hnav : ∀ c, nav (backend c) = some (connOf pages (cursorIndex c)))
    (maxPages : Nat) (hcap : maxPages ≤ pages.length) :
    (meetup_pages_loop nav backend maxPages none [] none).1
      = some ((pages.take maxPages).flatten) := by
  cases maxPages with
  | zero => simp [meetup_pages_loop]
  | succ m =>
    have hpos : 0 < pages.length := by omega
    have := meetup_loop_pages_nolimit pages nav backend hnav (m + 1) 0 [] none rfl hpos
    simpa [List.drop_zero] using this

/-- Three available pages of two items each (six items in total). -/
def c6Pages : List (List JVal) :=
  [[.str "a", .str "b"], [.str "c", .str "d"], [.str "e", .str "f"]]

/-- C6 counterexample: with limit 5 set over 6 available items but
`max_pages = 1`, the fetch returns 2 items, not `min(limit, total
available) = 5`: the page-budget cap can stop the fetch before the limit is
reached, so the claim's unconditional "exactly min(limit, total available
items)" fails. -/
theorem c6_counterexample :
    (luma_get_all_pages (pagesBackend c6Pages) 1 (some 5)).1
      = some [.str "a", .str "b"] ∧
    c6Pages.flatten.length = 6 ∧
    ([JVal.str "a", .str "b"].length ≠ min 5 6) :=
  ⟨rfl, rfl, by decide⟩

/-- C6 (amended): for every paginated fetch with a set limit whose
available pages all fit within the `max_pages` budget, the result is
exactly the `limit`-prefix of the concatenated pages — hence exactly
`min(limit, total available items)` items, e.g. limit 3 over pages of size
2 yields exactly 3 items; the limit check truncates to exactly `limit` and
stops.  This holds for the Luma fetch and for the Meetup group listing
(whose edges are further mapped to their `node`s after truncation). -/
theorem c6_limit_truncation (pages : List (List JVal)) (l maxPages : Nat)
    (hfit : pages.length ≤ maxPages) :
    ((luma_get_all_pages (pagesBackend pages) maxPages (some l)).1
        = some (pages.flatten.take l) ∧
      (pages.flatten.take l).length = min l pages.flatten.length) ∧
    (∀ gs, nodesOf (pages.flatten.take l) = some gs →
      (list_all_my_groups (myGroupsBackend pages) (some l) maxPages).1
        = some [("total", .num gs.length), ("groups", .arr gs)]) := by
  refine ⟨⟨luma_limit_full pages l maxPages hfit, List.length_take l pages.flatten⟩, ?_⟩
  intro gs hgs
  have hloop := meetup_limit_full pages selfMemberships (myGroupsBackend pages)
    (fun c => rfl) l maxPages hfit
  simp only [list_all_my_groups, hloop, hgs]

/-- C6 witness: the amended theorem at the claim's own example — limit 3
over pages of size 2 (all within the default page budget) yields exactly
3 items, for both variants. -/
theorem c6_limit_truncation_witness :
    ((luma_get_all_pages (pagesBackend c6Pages) 10 (some 3)).1
        = some (c6Pages.flatten.take 3) ∧
      (c6Pages.flatten.take 3).length = min 3 c6Pages.flatten.length) ∧
    (∀ gs, nodesOf (c6Pages.flatten.take 3) = some gs →
      (list_all_my_groups (myGroupsBackend c6Pages) (some 3) 10).1
        = some [("total", .num gs.length), ("groups", .arr gs)]) :=
  c6_limit_truncation c6Pages 3 10 (by decide)

/-- C7: the paginated fetch makes at most `maxPages` backend calls whatever
the backend returns (first two conjuncts: the Luma and the Meetup loop, any
backend, any cursor behaviour — including pages that claim more pages but
return a missing or empty next cursor); and exhausting `maxPages` returns
the items accumulated so far without error: with `maxPages` not above the
number of available pages, the fetch returns exactly the first `maxPages`
pages' items (e.g. 5 available pages with `maxPages = 2` yields exactly the
first 2 pages' items), for the Luma fetch and the Meetup member listing. -/
theorem c7_max_pages_cap :
    (∀ (backend : Option JVal → Dict) (fuel : Nat) (limit : Option Nat)
        (acc : List JVal) (cursor : Option JVal),
      (luma_pages_loop backend fuel limit acc cursor).2 ≤ fuel) ∧
    (∀ (nav : Dict → Option Dict) (backend : Option JVal → Dict) (fuel : Nat)
        (limit : Option Nat) (acc : List JVal) (cursor : Option JVal),
      (meetup_pages_loop nav backend fuel limit acc cursor).2 ≤ fuel) ∧
    (∀ (pages : List (List JVal)) (maxPages : Nat), maxPages ≤ pages.length →
      (luma_get_all_pages (pagesBackend pages) maxPages none).1
        = some ((pages.take maxPages).flatten)) ∧
    (∀ (pages : List (List JVal)) (maxPages : Nat) (ms : List JVal),
      maxPages ≤ pages.length →
      membersOf ((pages.take maxPages).flatten) = some ms →
      (list_all_group_members (groupMembersBackend pages) none maxPages).1
        = some [("total", .num ms.length), ("members", .arr ms)]) := by
  refine ⟨luma_loop_calls_le, meetup_loop_calls_le, luma_nolimit_cap, ?_⟩
  intro pages maxPages ms hcap hms
  have hloop := meetup_nolimit_cap pages groupMemberships (groupMembersBackend pages)
    (fun c => rfl) maxPages hcap
  simp only [list_all_group_members, hloop, hms]

/-- A five-page member listing: page `i` holds the single edge for member
`mi` with an empty metadata object. -/
def c7Pages : List (List JVal) :=
  [[.obj [("node", .obj [("id", .str "m0")]), ("metadata", .obj [])]],
   [.obj [("node", .obj [("id", .str "m1")]), ("metadata", .obj [])]],
   [.obj [("node", .obj [("id", .str "m2")]), ("metadata", .obj [])]],
   [.obj [("node", .obj [("id", .str "m3")]), ("metadata", .obj [])]],
   [.obj [("node", .obj [("id", .str "m4")]), ("metadata", .obj [])]]]

/-- C7 witness: five available pages with `maxPages = 2` yield exactly the
first two pages' items for the Luma fetch, and exactly the first two
members for the Meetup member listing, with no error. -/
theorem c7_max_pages_cap_witness :
    (luma_get_all_pages (pagesBackend c6Pages) 2 none).1
      = some ((c6Pages.take 2).flatten) ∧
    (list_all_group_members (groupMembersBackend c7Pages) none 2).1
      = some [("total", .num 2),
              ("members", .arr [
                .obj [("id", .str "m0"), ("name", .null), ("city", .null),
                      ("country", .null), ("role", .null), ("status", .null),
                      ("joinTime", .null)],
                .obj [("id", .str "m1"), ("name", .null), ("city", .null),
                      ("country", .null), ("role", .null), ("status", .null),
                      ("joinTime", .null)]])] :=
  ⟨c7_max_pages_cap.2.2.1 c6Pages 2 (by decide),
   c7_max_pages_cap.2.2.2 c7Pages 2 _ (by decide) rfl⟩

/-! ## Bounded fan-out member search
(`MeetupProvider.find_member_across_groups`)

Each probe's `execute` call either raises (caught by the probe's `except`)
or returns a data dict; the fixed query and member id are absorbed into the
probe function.  The semaphore bounds how many probes run at once, but
every mutation of the shared `found_in` list and `member_profile` happens
in the suspension-free tail of a probe after its single await, so a
concurrent run is observationally a sequential run in completion order; we
quantify over every completion order (any permutation of the groups). -/

/-- The outcome of the probe's `execute` call for one group. -/
inductive ProbeOutcome where
  | raises
  | returns (data : Dict)

/-- The shared accumulation state of the fan-out. -/
structure FanState where
  member_profile : Option JVal
  found_in : List JVal

/-- `data["groupByUrlname"]["memberships"]["edges"]` with the subsequent
`edges[0]` subscription in mind: a non-list value is treated as a
Python-level error. -/
def probeEdges (data : Dict) : Option (List JVal) :=
  match dget data "groupByUrlname" with
  | some (.obj g) =>
    match dget g "memberships" with
    | some (.obj m) =>
      match dget m "edges" with
      | some (.arr es) => some es
      | _ => none
    | _ => none
  | _ => none

/-- The body of `_check_group` for one group, acting on the shared state:
`urlname = group["urlname"]` (uncaught on a malformed group), the probed
`execute` (whose exception is caught and contributes nothing), and on a
non-empty `edges` the profile is set from `edge["node"]` if still unset and
a membership entry is appended. -/
def checkGroup (probe : Dict → ProbeOutcome) (st : FanState) (g : Dict) :
    Option FanState :=
  match dget g "urlname" with
  | some (.str urlname) =>
    match probe g with
    | .raises => some st
    | .returns data =>
      match probeEdges data with
      | none => none
      | some [] => some st
      | some (edge :: _) =>
        match edge with
        | .obj e =>
          let newProfile : Option (Option JVal) :=
            match st.member_profile with
            | some p => some (some p)
            | none =>
              match dget e "node" with
              | some nd => some (some nd)
              | none => none
          match newProfile with
          | none => none
          | some prof =>
            match dget e "metadata" with
            | some md =>
              some { member_profile := prof,
                     found_in := st.found_in ++ [.obj [
                       ("group_urlname", .str urlname),
                       ("group_name", (dget g "name").getD (.str urlname)),
                       ("membership", md)]] }
            | none => none
        | _ => none
  | _ => none

/-- All probes, run in completion order. -/
def runProbes (probe : Dict → ProbeOutcome) : FanState → List Dict → Option FanState
  | st, [] => some st
  | st, g :: gs =>
    match checkGroup probe st g with
    | none => none
    | some st' => runProbes probe st' gs

/-- `MeetupProvider.find_member_across_groups` given the already-fetched
group list: run all probes, then fail with `ProviderError` naming the group
count if no profile was found, else return `{**member_profile, "groups":
found_in}`. -/
def find_member_across_groups (probe : Dict → ProbeOutcome) (member_id : String)
    (groups : List Dict) (order : List Dict) : Option (Except String JVal) :=
  match runProbes probe { member_profile := none, found_in := [] } order with
  | none => none
  | some st =>
    match st.member_profile with
    | none =>
      some (.error ("Member " ++ member_id ++ " not found in any of your "
        ++ toString groups.length ++ " groups"))
    | some p =>
      match p with
      | .obj pd => some (.ok (.obj (dinsert pd "groups" (.arr st.found_in))))
      | _ => none

/-- Whether the probe for this group raises. -/
def probeRaises (probe : Dict → ProbeOutcome) (g : Dict) : Bool :=
  match probe g with
  | .raises => true
  | .returns _ => false

/-- Whether this group's probe finds the member (non-empty `edges`). -/
def probeMatches (probe : Dict → ProbeOutcome) (g : Dict) : Bool :=
  match probe g with
  | .raises => false
  | .returns data =>
    match probeEdges data with
    | some (_ :: _) => true
    | _ => false

/-- The profile a matching group's probe would contribute. -/
def probeNode (probe : Dict → ProbeOutcome) (g : Dict) : Option JVal :=
  match probe g with
  | .returns data =>
    match probeEdges data with
    | some (e :: _) =>
      match e with
      | .obj ed => dget ed "node"
      | _ => none
    | _ => none
  | .raises => none

/-- Well-shapedness of one group for the fan-out: a string `urlname`, and a
probe outcome that is either an exception, an empty match, or a first edge
that is an object carrying an object `node` and a `metadata`. -/
def goodGroup (probe : Dict → ProbeOutcome) (g : Dict) : Bool :=
  (match dget g "urlname" with
   | some (.str _) => true
   | _ => false) &&
  (match probe g with
   | .raises => true
   | .returns data =>
     match probeEdges data with
     | none => false
     | some [] => true
     | some (edge :: _) =>
       match edge with
       | .obj e =>
         (match dget e "node" with
          | some (.obj _) => true
          | _ => false)
         && (dget e "metadata").isSome
       | _ => false)

/-- First-defined choice (how `member_profile` evolves). -/
def firstSome (a b : Option JVal) : Option JVal :=
  match a with
  | some x => some x
  | none => b

/-- Helper: over well-shaped groups the fan-out fold never crashes, appends
one membership entry per matching group, and sets the profile from the
first matching group in completion order. -/
theorem runProbes_spec (probe : Dict → ProbeOutcome) :
    ∀ (order : List Dict) (st : FanState),
    (∀ g ∈ order, goodGroup probe g = true) →
    ∃ st', runProbes probe st order = some st' ∧
      st'.found_in.length = st.found_in.length + order.countP (probeMatches probe) ∧
      st'.member_profile
        = firstSome st.member_profile
            ((order.find? (probeMatches probe)).bind (probeNode probe)) := by
  intro order
  induction order with
  | nil =>
    intro st h
    refine ⟨st, rfl, by simp, ?_⟩
    cases st.member_profile <;> simp [firstSome]
  | cons g gs ih =>
    intro st h
    have hg : goodGroup probe g = true := h g (by simp)
    have hgs : ∀ g' ∈ gs, goodGroup probe g' = true := fun g' hm => h g' (by simp [hm])
    rcases hu : dget g "urlname" with _ | v
    · simp [goodGroup, hu] at hg
    rcases v with _ | b | n | u | xs | ob
    · simp [goodGroup, hu] at hg
    · simp [goodGroup, hu] at hg
    · simp [goodGroup, hu] at hg
    case cons.some.arr => simp [goodGroup, hu] at hg
    case cons.some.obj => simp [goodGroup, hu] at hg
    case cons.some.str =>
      rcases hp : probe g with _ | data
      · -- the probe raises: contributes nothing
        have hstep : checkGroup probe st g = some st := by
          simp [checkGroup, hu, hp]
        have hm : probeMatches probe g = false := by simp [probeMatches, hp]
        have hcount : (g :: gs).countP (probeMatches probe)
            = gs.countP (probeMatches probe) := by
          simp [List.countP_cons, hm]
        have hfind : (g :: gs).find? (probeMatches probe)
            = gs.find? (probeMatches probe) :=
          List.find?_cons_of_neg _ (by simp [hm])
        obtain ⟨st', h1, h2, h3⟩ := ih st hgs
        exact ⟨st', by simp [runProbes, hstep, h1], by rw [hcount]; exact h2,
          by rw [hfind]; exact h3⟩
      · rcases hedges : probeEdges data with _ | edges
        · simp [goodGroup, hu, hp, hedges] at hg
        rcases edges with _ | ⟨edge, rest⟩
        · -- empty match: contributes nothing
          have hstep : checkGroup probe st g = some st := by
            simp [checkGroup, hu, hp, hedges]
          have hm : probeMatches probe g = false := by simp [probeMatches, hp, hedges]
          have hcount : (g :: gs).countP (probeMatches probe)
              = gs.countP (probeMatches probe) := by
            simp [List.countP_cons, hm]
          have hfind : (g :: gs).find? (probeMatches probe)
              = gs.find? (probeMatches probe) :=
            List.find?_cons_of_neg _ (by simp [hm])
          obtain ⟨st', h1, h2, h3⟩ := ih st hgs
          exact ⟨st', by simp [runProbes, hstep, h1], by rw [hcount]; exact h2,
            by rw [hfind]; exact h3⟩
        rcases edge with _ | b | n | s | xs | e
        · simp [goodGroup, hu, hp, hedges] at hg
        · simp [goodGroup, hu, hp, hedges] at hg
        · simp [goodGroup, hu, hp, hedges] at hg
        · simp [goodGroup, hu, hp, hedges] at hg
        · simp [goodGroup, hu, hp, hedges] at hg
        · rcases hnode : dget e "node" with _ | nd
          · simp [goodGroup, hu, hp, hedges, hnode] at hg
          rcases hmd : dget e "metadata" with _ | md
          · simp [goodGroup, hu, hp, hedges, hmd] at hg
          have hm : probeMatches probe g = true := by simp [probeMatches, hp, hedges]
          have hnd : probeNode probe g = some nd := by simp [probeNode, hp, hedges, hnode]
          have hcount : (g :: gs).countP (probeMatches probe)
              = gs.countP (probeMatches probe) + 1 := by
            simp [List.countP_cons, hm]
          have hfind : (g :: gs).find? (probeMatches probe) = some g :=
            List.find?_cons_of_pos _ hm
          set entry : JVal := .obj [
            ("group_urlname", .str u),
            ("group_name", (dget g "name").getD (.str u)),
            ("membership", md)] with hentry
          have hstep : checkGroup probe st g
              = some { member_profile := firstSome st.member_profile (some nd),
                       found_in := st.found_in ++ [entry] } := by
            cases hsp : st.member_profile with
            | none => simp [checkGroup, hu, hp, hedges, hnode, hmd, firstSome, hsp, hentry]
            | some p => simp [checkGroup, hu, hp, hedges, hnode, hmd, firstSome, hsp, hentry]
          obtain ⟨st', h1, h2, h3⟩ :=
            ih { member_profile := firstSome st.member_profile (some nd),
                 found_in := st.found_in ++ [entry] } hgs
          refine ⟨st', by simp [runProbes, hstep, h1], ?_, ?_⟩
          · rw [hcount, h2]
            simp
            omega
          · rw [h3, hfind]
            simp only [Option.some_bind, hnd]
            cases hsp : st.member_profile <;> simp [firstSome, hsp]

/-- Helper: a probe whose request raises contributes nothing — the fold
over any order equals the fold over the order with raising probes removed. -/
theorem runProbes_skip_raising (probe : Dict → ProbeOutcome) :
    ∀ (order : List Dict) (st : FanState),
    (∀ g ∈ order, goodGroup probe g = true) →
    runProbes probe st order
      = runProbes probe st (order.filter (fun g => ! probeRaises probe g)) := by
  intro order
  induction order with
  | nil => intro st h; rfl
  | cons g gs ih =>
    intro st h
    have hg : goodGroup probe g = true := h g (by simp)
    have hgs : ∀ g' ∈ gs, goodGroup probe g' = true := fun g' hm => h g' (by simp [hm])
    cases hr : probeRaises probe g with
    | true =>
      have hp : probe g = .raises := by
        revert hr
        unfold probeRaises
        cases probe g <;> simp
      rcases hu : dget g "urlname" with _ | v
      · simp [goodGroup, hu] at hg
      rcases v with _ | b | n | u | xs | ob
      · simp [goodGroup, hu] at hg
      · simp [goodGroup, hu] at hg
      · simp [goodGroup, hu] at hg
      case cons.true.some.arr => simp [goodGroup, hu] at hg
      case cons.true.some.obj => simp [goodGroup, hu] at hg
      case cons.true.some.str =>
        have hstep : checkGroup probe st g = some st := by
          simp [checkGroup, hu, hp]
        have hfilter : (g :: gs).filter (fun g' => ! probeRaises probe g')
            = gs.filter (fun g' => ! probeRaises probe g') := by
          simp [List.filter_cons, hr]
        rw [hfilter]
        simp only [runProbes, hstep]
        exact ih st hgs
    | false =>
      have hfilter : (g :: gs).filter (fun g' => ! probeRaises probe g')
          = g :: gs.filter (fun g' => ! probeRaises probe g') := by
        simp [List.filter_cons, hr]
      rw [hfilter]
      simp only [runProbes]
      cases checkGroup probe st g with
      | none => rfl
      | some st' => exact ih st' hgs

/-- Helper: a well-shaped matching group's probe yields an object profile. -/
theorem probeNode_of_match (probe : Dict → ProbeOutcome) (g : Dict)
    (hgood : goodGroup probe g = true) (hm : probeMatches probe g = true) :
    ∃ pd, probeNode probe g = some (.obj pd) := by
  rcases hp : probe g with _ | data
  · simp [probeMatches, hp] at hm
  rcases hedges : probeEdges data with _ | edges
  · simp [probeMatches, hp, hedges] at hm
  rcases edges with _ | ⟨edge, rest⟩
  · simp [probeMatches, hp, hedges] at hm
  rcases edge with _ | b | n | s | xs | e
  · simp [goodGroup, hp, hedges] at hgood
  · simp [goodGroup, hp, hedges] at hgood
  · simp [goodGroup, hp, hedges] at hgood
  · simp [goodGroup, hp, hedges] at hgood
  · simp [goodGroup, hp, hedges] at hgood
  · rcases hnode : dget e "node" with _ | nd
    · simp [goodGroup, hp, hedges, hnode] at hgood
    rcases nd with _ | b | n | s | xs | pd
    · simp [goodGroup, hp, hedges, hnode] at hgood
    · simp [goodGroup, hp, hedges, hnode] at hgood
    · simp [goodGroup, hp, hedges, hnode] at hgood
    · simp [goodGroup, hp, hedges, hnode] at hgood
    · simp [goodGroup, hp, hedges, hnode] at hgood
    · exact ⟨pd, by simp [probeNode, hp, hedges, hnode]⟩

/-- C8: over any completion order of the probed groups (the fan-out's
nondeterminism), (1) a probe whose request raises contributes no result and
its exception never propagates — the run equals the run with the raising
probes removed, and the remaining probes complete; (2) if zero collections
match, the search fails with `ProviderError` whose message names the total
number of collections searched; (3) if at least one collection matches, the
search succeeds with the profile of the first matching collection to
complete, extended with one `groups` entry per matching collection. -/
theorem c8_fan_out_search (probe : Dict → ProbeOutcome) (member_id : String)
    (groups order : List Dict)
    (hperm : order.Perm groups)
    (hgood : groups.all (goodGroup probe) = true) :
    (runProbes probe { member_profile := none, found_in := [] } order
       = runProbes probe { member_profile := none, found_in := [] }
           (order.filter (fun g => ! probeRaises probe g))) ∧
    (groups.countP (probeMatches probe) = 0 →
      find_member_across_groups probe member_id groups order
        = some (.error ("Member " ++ member_id ++ " not found in any of your "
            ++ toString groups.length ++ " groups"))) ∧
    (0 < groups.countP (probeMatches probe) →
      ∃ pd found,
        (order.find? (probeMatches probe)).bind (probeNode probe) = some (.obj pd) ∧
        found.length = groups.countP (probeMatches probe) ∧
        find_member_across_groups probe member_id groups order
          = some (.ok (.obj (dinsert pd "groups" (.arr found))))) := by
  have hgood' : ∀ g ∈ groups, goodGroup probe g = true := fun g hgm =>
    List.all_eq_true.mp hgood g hgm
  have hgoodO : ∀ g ∈ order, goodGroup probe g = true := fun g hm =>
    hgood' g (hperm.mem_iff.mp hm)
  have hcount : order.countP (probeMatches probe) = groups.countP (probeMatches probe) :=
    hperm.countP_eq _
  refine ⟨runProbes_skip_raising probe order _ hgoodO, ?_, ?_⟩
  · intro hzero
    obtain ⟨st', h1, h2, h3⟩ := runProbes_spec probe order ⟨none, []⟩ hgoodO
    have hzeroO : order.countP (probeMatches probe) = 0 := by rw [hcount]; exact hzero
    have hfind : order.find? (probeMatches probe) = none := by
      apply List.find?_eq_none.mpr
      intro g hgm hpm
      exact (List.countP_eq_zero.mp hzeroO g hgm) hpm
    have hprof : st'.member_profile = none := by rw [h3, hfind]; rfl
    simp [find_member_across_groups, h1, hprof]
  · intro hpos
    obtain ⟨st', h1, h2, h3⟩ := runProbes_spec probe order ⟨none, []⟩ hgoodO
    obtain ⟨gm, hfind⟩ : ∃ gm, order.find? (probeMatches probe) = some gm := by
      cases hf : order.find? (probeMatches probe) with
      | some gm => exact ⟨gm, rfl⟩
      | none =>
        exfalso
        have hzeroO : order.countP (probeMatches probe) = 0 :=
          List.countP_eq_zero.mpr (fun a ha => List.find?_eq_none.mp hf a ha)
        omega
    have hgm_match : probeMatches probe gm = true := List.find?_some hfind
    have hgm_mem : gm ∈ order := List.mem_of_find?_eq_some hfind
    obtain ⟨pd, hpd⟩ := probeNode_of_match probe gm (hgoodO gm hgm_mem) hgm_match
    have hprof : st'.member_profile = some (.obj pd) := by
      rw [h3, hfind]
      simp [firstSome, hpd]
    refine ⟨pd, st'.found_in, ?_, ?_, ?_⟩
    · rw [hfind]
      simpa using hpd
    · rw [← hcount]
      simpa using h2
    · simp [find_member_across_groups, h1, hprof]

/-- Five groups for the fan-out witness. -/
def c8Groups : List Dict :=
  [[("urlname", .str "g0"), ("name", .str "Group 0")],
   [("urlname", .str "g1"), ("name", .str "Group 1")],
   [("urlname", .str "g2"), ("name", .str "Group 2")],
   [("urlname", .str "g3"), ("name", .str "Group 3")],
   [("urlname", .str "g4"), ("name", .str "Group 4")]]

/-- A probe where group g1's request raises, g2 matches member m42, and the
rest return empty matches. -/
def c8Probe (g : Dict) : ProbeOutcome :=
  match dget g "urlname" with
  | some (.str "g1") => .raises
  | some (.str "g2") => .returns
      [("groupByUrlname", .obj [("memberships", .obj [("edges", .arr
        [.obj [("node", .obj [("id", .str "m42")]),
               ("metadata", .obj [("role", .str "member")])]])])])]
  | _ => .returns [("groupByUrlname", .obj [("memberships", .obj [("edges", .arr [])])])]

/-- C8 witness: the theorem at five concrete groups, one of which raises
and one of which matches. -/
theorem c8_fan_out_search_witness :
    (runProbes c8Probe { member_profile := none, found_in := [] } c8Groups
       = runProbes c8Probe { member_profile := none, found_in := [] }
           (c8Groups.filter (fun g => ! probeRaises c8Probe g))) ∧
    (c8Groups.countP (probeMatches c8Probe) = 0 →
      find_member_across_groups c8Probe "m42" c8Groups c8Groups
        = some (.error ("Member " ++ "m42" ++ " not found in any of your "
            ++ toString c8Groups.length ++ " groups"))) ∧
    (0 < c8Groups.countP (probeMatches c8Probe) →
      ∃ pd found,
        (c8Groups.find? (probeMatches c8Probe)).bind (probeNode c8Probe) = some (.obj pd) ∧
        found.length = c8Groups.countP (probeMatches c8Probe) ∧
        find_member_across_groups c8Probe "m42" c8Groups c8Groups
          = some (.ok (.obj (dinsert pd "groups" (.arr found))))) :=
  c8_fan_out_search c8Probe "m42" c8Groups c8Groups (List.Perm.refl _) (by rfl)
